import Mathlib

/-!
# pgcrdbbench: a shallow embedding of `main.go`

The program has two commands.  `csvs` writes one synthetic CSV data set per
row-size class; `scan` times a fixed list of queries against the tables loaded
from those files and writes the per-run and median latencies to a results CSV.

Conventions of the embedding:

* Go `int`, `int64` and `time.Duration` values are `Int` (nanoseconds for a
  duration).  The only places where the 64-bit range matters are the
  float64 round trip in `median` and `time.Time.Sub`; both are modelled
  explicitly.
* A run-time panic (index out of range, `make` with a negative length) is
  `none`.
* Standard-library functions the program calls (`sort.Ints`, `strconv`,
  `fmt.Sprintf`, `encoding/base64`, `flag`) are modelled by their documented
  behaviour; the random source, the clock and the database are parameters.
-/

namespace Pgcrdbbench

/-! ## Constants (main.go:21-38) -/

/-- Number of timed executions per query and size class. -/
def runCount : Nat := 10

/-- Number of rows of every generated data set. -/
def rowCount : Nat := 1000000

/-- The row-size classes, in the order the program iterates over them. -/
def rowSizes : List Int := [16, 32, 512, 1024, 4096]

/-! ## Numeric helpers used by `median` -/

/-- The function `sort.Ints`: the ascending sort of a slice of ints. -/
def sortInts (xs : List Int) : List Int :=
  xs.insertionSort (fun a b => a ≤ b)

/-- Searches the least `e ≥ e0` with `n < 2 ^ (53 + e)`, trying at most
`fuel` candidates. -/
def roundShift (n : Nat) : Nat → Nat → Nat
  | 0, e => e
  | fuel + 1, e => if n < 2 ^ (53 + e) then e else roundShift n fuel (e + 1)

/-- The conversion `float64(x)` of an integer: the nearest value with a 53-bit
significand, ties to even.  The result is again an integer.  (Valid below
`2 ^ 1024`, far above the 64-bit range.) -/
def float64OfInt (x : Int) : Int :=
  let n := x.natAbs
  if n ≤ 2 ^ 53 then x
  else
    let e := roundShift n 1024 1
    let q := n / 2 ^ e
    let r := n % 2 ^ e
    let half := 2 ^ (e - 1)
    let q1 := if half < r ∨ (r = half ∧ q % 2 = 1) then q + 1 else q
    x.sign * ((q1 * 2 ^ e : Nat) : Int)

/-- The float64 sum of two integer-valued float64 numbers: the exact sum,
rounded. -/
def float64Add (a b : Int) : Int :=
  float64OfInt (a + b)

/-- The least `int64`. -/
def minInt64 : Int := -(2 ^ 63)

/-- The greatest `int64`. -/
def maxInt64 : Int := 2 ^ 63 - 1

/-- The conversion `time.Duration(s / 2.0)` of the float64 number `s / 2` for an
integer-valued float64 `s`: halving is exact in binary floating point and the
conversion to `int64` discards the fraction (truncation toward zero).  When the
truncated value does not fit in an `int64` the Go specification leaves the
result to the implementation; the value taken here is the one amd64 produces. -/
def durationOfHalf (s : Int) : Int :=
  let t := Int.tdiv s 2
  if minInt64 ≤ t ∧ t ≤ maxInt64 then t else minInt64

/-! ## `median` (main.go:164-175) -/

/-- The function `median`.  `durs` holds the samples' nanosecond counts. -/
def median (durs : List Int) : Option Int :=
  let sortedDurs := sortInts durs
  if sortedDurs.length % 2 = 1 then
    sortedDurs[sortedDurs.length / 2]?
  else do
    let a ← sortedDurs[sortedDurs.length / 2]?
    let b ← sortedDurs[sortedDurs.length / 2 + 1]?
    let m := float64Add (float64OfInt a) (float64OfInt b)
    pure (durationOfHalf m)

/-! ## Text formatting (strconv, fmt) -/

/-- Decimal rendering of an integer: `strconv.Itoa`, `strconv.FormatInt(x, 10)`
and the verb `%d`. -/
def itoa (x : Int) : String :=
  toString x

/-- Left padding of a digit string with zeros up to `width` characters. -/
def padZero (width : Nat) (digits : String) : String :=
  String.mk (List.replicate (width - digits.length) '0') ++ digits

/-- The verb `%04d`: zero padding to a total width of 4, the sign of a
negative number counting as one of the 4 characters. -/
def sprintf04d (x : Int) : String :=
  if x < 0 then "-" ++ padZero 3 (toString x.natAbs) else padZero 4 (toString x.natAbs)

/-- The call `fmt.Sprintf(format, arg)` for a format whose only verb is one
`%s`: the argument replaces the verb. -/
def sprintfS : List Char → String → List Char
  | '%' :: 's' :: rest, arg => arg.data ++ rest
  | c :: rest, arg => c :: sprintfS rest arg
  | [], _ => []

/-- The method `time.Duration.Milliseconds`: `int64(d) / 1e6`, an integer
division that truncates toward zero. -/
def milliseconds (d : Int) : Int :=
  Int.tdiv d 1000000

/-! ## `tableName` (main.go:67-69) -/

/-- The function `tableName`: `fmt.Sprintf("scan_%04d", sz)`. -/
def tableName (sz : Int) : String :=
  "scan_" ++ sprintf04d sz

/-! ## The results CSV of `runScan` (main.go:126-153)

`results[i][j]` is the sample of run `j` for the size class at position `i`.
The state of the CSV writer is the list of the records written so far. -/

/-- A CSV record: its fields. -/
abbrev Record := List String

/-- A CSV file the program writes: its name and the records written to it. -/
structure CsvFile where
  name : String
  records : List Record

/-- The loop `for i, sz := range rowSizes { record[i+1] = fmt.Sprintf("%d B", sz) }`. -/
def setHeaderCells : List Int → Nat → Record → Record
  | [], _, record => record
  | sz :: rest, i, record => setHeaderCells rest (i + 1) (record.set (i + 1) (itoa sz ++ " B"))

/-- The header record (main.go:126-130). -/
def headerRecord : Record :=
  let record := List.replicate (rowSizes.length + 1) ""
  let record := record.set 0 "run"
  setHeaderCells rowSizes 0 record

/-- The loop `for i := range rowSizes { record = append(record, cell i) }`, where
computing the cell may panic. -/
def appendCells (cell : Nat → Option String) : List Nat → Record → Option Record
  | [], record => some record
  | i :: rest, record => do
    let c ← cell i
    appendCells cell rest (record ++ [c])

/-- The cell `strconv.FormatInt(results[i][j].Milliseconds(), 10)`. -/
def runCell (results : List (List Int)) (j i : Nat) : Option String := do
  let row ← results[i]?
  let d ← row[j]?
  pure (itoa (milliseconds d))

/-- The record of run `j` (0-based), main.go:135-139. -/
def runRecord (results : List (List Int)) (j : Nat) : Option Record :=
  appendCells (runCell results j) (List.range rowSizes.length) ([] ++ [itoa ((j : Int) + 1)])

/-- The cell `strconv.FormatInt(median(results[i]).Milliseconds(), 10)`. -/
def medianCell (results : List (List Int)) (i : Nat) : Option String := do
  let row ← results[i]?
  let m ← median row
  pure (itoa (milliseconds m))

/-- The median record (main.go:146-150). -/
def medianRecord (results : List (List Int)) : Option Record :=
  appendCells (medianCell results) (List.range rowSizes.length) ([] ++ ["median"])

/-- The loop `for j := 0; j < runCount; j++` of main.go:134-143, with `n`
iterations left, writing one record per run. -/
def writeRunRecords (results : List (List Int)) :
    Nat → Nat → List Record → Option (List Record)
  | 0, _, written => some written
  | n + 1, j, written => do
    let record ← runRecord results j
    writeRunRecords results n (j + 1) (written ++ [record])

/-- The records `runScan` writes to the results CSV of one query, in order. -/
def resultRecords (results : List (List Int)) : Option (List Record) := do
  let written := [] ++ [headerRecord]
  let written ← writeRunRecords results runCount 0 written
  let record ← medianRecord results
  pure (written ++ [record])

/-! ## The measuring loop of `runScan` (main.go:109-120)

The clock and the database are outside the program.  The environment gives,
for the `k`-th external operation of an execution, the clock reading at that
moment and whether a database call made at that moment fails; the world state
counts the operations performed and records them. -/

/-- An external operation of the measuring loop. -/
inductive Event where
  | now (reading : Int)
  | query (sql : String)
  | close
  deriving DecidableEq

/-- The clock and the database. -/
structure Env where
  clock : Nat → Int
  queryFails : Nat → Bool
  closeFails : Nat → Bool

/-- Number of external operations performed, and their record. -/
structure World where
  step : Nat
  trace : List Event
  deriving DecidableEq

/-- The call `time.Now()`. -/
def timeNow (env : Env) (w : World) : Int × World :=
  (env.clock w.step, { step := w.step + 1, trace := w.trace ++ [Event.now (env.clock w.step)] })

/-- The call `db.QueryContext(ctx, sql)`; the flag tells whether it returned an
error. -/
def queryContext (env : Env) (w : World) (sql : String) : Bool × World :=
  (env.queryFails w.step, { step := w.step + 1, trace := w.trace ++ [Event.query sql] })

/-- The call `rows.Close()`; the flag tells whether it returned an error. -/
def rowsClose (env : Env) (w : World) : Bool × World :=
  (env.closeFails w.step, { step := w.step + 1, trace := w.trace ++ [Event.close] })

/-- The method `time.Time.Sub` on clock readings in nanoseconds: the difference,
saturated to the range of a duration. -/
def timeSub (t u : Int) : Int :=
  if t - u < minInt64 then minInt64 else if maxInt64 < t - u then maxInt64 else t - u

/-- One iteration of the inner loop (main.go:114-118): the sample stored in
`results[i][j]` and the world afterwards, or `none` when `must` panics. -/
def runOnce (env : Env) (w : World) (sql : String) : Option (Int × World) :=
  let (start, w) := timeNow env w
  let (err, w) := queryContext env w sql
  let (t, w) := timeNow env w
  let sample := timeSub t start
  if err then none
  else
    let (cerr, w) := rowsClose env w
    if cerr then none else some (sample, w)

/-- The loop `for j := 0; j < runCount; j++` of main.go:113-119 with `n`
iterations left; `row` is `results[i]`. -/
def measureRuns (env : Env) (sql : String) : Nat → Nat → List Int → World →
    Option (List Int × World)
  | 0, _, row, w => some (row, w)
  | n + 1, j, row, w => do
    let (sample, w) ← runOnce env w sql
    measureRuns env sql n (j + 1) (row.set j sample) w

/-- The loop `for i, sz := range rowSizes` of main.go:110-120. -/
def measureSizes (env : Env) (q : String) : List Int → Nat → List (List Int) → World →
    Option (List (List Int) × World)
  | [], _, results, w => some (results, w)
  | sz :: rest, i, results, w => do
    let tbl := tableName sz
    let sql := String.mk (sprintfS q.data tbl)
    let (row, w) ← measureRuns env sql runCount 0 (List.replicate runCount 0) w
    measureSizes env q rest (i + 1) (results.set i row) w

/-- The samples `runScan` collects for the query template `q`. -/
def measure (env : Env) (q : String) (w : World) : Option (List (List Int) × World) :=
  measureSizes env q rowSizes 0 (List.replicate rowSizes.length []) w

/-- A query template and its label (main.go:40-43). -/
structure BenchmarkQuery where
  q : String
  label : String

/-- The query templates (main.go:28-37). -/
def queries : List BenchmarkQuery :=
  [{ q := "SELECT SUM(LENGTH(payload)) FROM %s", label := "sum-length-payload" },
   { q := "SELECT COUNT(number) FROM %s", label := "select-count" }]

/-- The body of the loop over the queries in `runScan` (main.go:103-159): the
samples are measured, then the results CSV is written.  The table printed on
standard output is left out. -/
def runScanQuery (env : Env) (label : String) (q : BenchmarkQuery) (w : World) :
    Option (CsvFile × World) := do
  let filename := "results-" ++ label ++ "-" ++ q.label ++ "-rowcount" ++ itoa rowCount ++ ".csv"
  let (results, w) ← measure env q.q w
  let records ← resultRecords results
  pure ({ name := filename, records := records }, w)

/-- The loop `for _, q := range queries` of `runScan`. -/
def runScanLoop (env : Env) (label : String) : List BenchmarkQuery → World → List CsvFile →
    Option (List CsvFile × World)
  | [], w, files => some (files, w)
  | q :: rest, w, files => do
    let (file, w) ← runScanQuery env label q w
    runScanLoop env label rest w (files ++ [file])

/-- The function `runScan` (main.go:98-162): the results files it writes.  The
connection URI only selects the database, which is the environment here. -/
def runScan (env : Env) (label : String) (w : World) : Option (List CsvFile × World) :=
  runScanLoop env label queries w []

/-- The sample the specification describes: the second clock reading is taken
after the cursor has been closed. -/
def runOnceCloseFirst (env : Env) (w : World) (sql : String) : Option (Int × World) :=
  let (start, w) := timeNow env w
  let (err, w) := queryContext env w sql
  if err then none
  else
    let (cerr, w) := rowsClose env w
    let (t, w) := timeNow env w
    if cerr then none else some (timeSub t start, w)

/-- A clock that advances by 10 ns per operation, and a database that never
fails. -/
def steadyEnv : Env :=
  { clock := fun k => 10 * (k : Int), queryFails := fun _ => false, closeFails := fun _ => false }

/-! ## `encoding/base64`, standard encoding with padding -/

/-- A byte. -/
abbrev Byte := Fin 256

/-- The byte with the value `x % 256`. -/
def byteOfNat (x : Nat) : Byte :=
  ⟨x % 256, Nat.mod_lt x (by decide)⟩

/-- The alphabet of the standard encoding. -/
def base64Alphabet : List Char :=
  "ABCDEFGHIJKLMNOPQRSTUVWXYZabcdefghijklmnopqrstuvwxyz0123456789+/".data

/-- The character that encodes the 6-bit value `v`. -/
def encodeSextet (v : Nat) : Char :=
  base64Alphabet.getD v 'A'

/-- The 6-bit value a character encodes, if it belongs to the alphabet. -/
def decodeSextet (c : Char) : Option Nat :=
  let i := base64Alphabet.indexOf c
  if i < 64 then some i else none

/-- The method `StdEncoding.EncodeToString`, as a list of characters: 3 bytes
give 4 characters; a last group of 1 or 2 bytes is padded with `=`. -/
def base64Encode : List Byte → List Char
  | [] => []
  | [a] =>
    let v := a.val * 65536
    [encodeSextet (v / 262144 % 64), encodeSextet (v / 4096 % 64), '=', '=']
  | [a, b] =>
    let v := a.val * 65536 + b.val * 256
    [encodeSextet (v / 262144 % 64), encodeSextet (v / 4096 % 64),
      encodeSextet (v / 64 % 64), '=']
  | a :: b :: c :: rest =>
    let v := a.val * 65536 + b.val * 256 + c.val
    encodeSextet (v / 262144 % 64) :: encodeSextet (v / 4096 % 64) ::
      encodeSextet (v / 64 % 64) :: encodeSextet (v % 64) :: base64Encode rest

/-- Decoding of a text without line breaks, 4 characters at a time; padding is
accepted in the last group only. -/
def base64DecodeQuanta : List Char → Option (List Byte)
  | [] => some []
  | c0 :: c1 :: c2 :: c3 :: rest =>
    if rest = [] ∧ c3 = '=' then
      if c2 = '=' then do
        let v0 ← decodeSextet c0
        let v1 ← decodeSextet c1
        pure [byteOfNat ((v0 * 262144 + v1 * 4096) / 65536)]
      else do
        let v0 ← decodeSextet c0
        let v1 ← decodeSextet c1
        let v2 ← decodeSextet c2
        let v := v0 * 262144 + v1 * 4096 + v2 * 64
        pure [byteOfNat (v / 65536), byteOfNat (v / 256)]
    else do
      let v0 ← decodeSextet c0
      let v1 ← decodeSextet c1
      let v2 ← decodeSextet c2
      let v3 ← decodeSextet c3
      let v := v0 * 262144 + v1 * 4096 + v2 * 64 + v3
      let tail ← base64DecodeQuanta rest
      pure (byteOfNat (v / 65536) :: byteOfNat (v / 256) :: byteOfNat v :: tail)
  | _ => none

/-- The method `StdEncoding.DecodeString`: carriage returns and line feeds are
skipped, the rest is decoded; `none` is a `CorruptInputError`. -/
def base64Decode (s : List Char) : Option (List Byte) :=
  base64DecodeQuanta (s.filter (fun c => c ≠ '\r' ∧ c ≠ '\n'))

/-- The method `StdEncoding.DecodedLen`: `n / 4 * 3` in Go integer arithmetic
(the division truncates toward zero). -/
def decodedLen (n : Int) : Int :=
  Int.tdiv n 4 * 3

/-! ## `makeFiles` (main.go:71-96) -/

/-- The random source `rng`, a parameter of the model: `read s n` is
`rng.Read` on a buffer of `n` bytes (it fills the whole buffer) and `intn s n`
is `rng.Intn(n)`; both return the new state of the source. -/
structure RandSource (σ : Type) where
  read : σ → Nat → List Byte × σ
  read_length : ∀ s n, (read s n).1.length = n
  intn : σ → Nat → Nat × σ

/-- The length of the slice `make([]byte, n)`; a negative `n` panics. -/
def makeLen (n : Int) : Option Nat :=
  if n < 0 then none else some n.toNat

/-- The row loop `for i := 0; i < rowCount; i++` (main.go:79-88) with `n`
iterations left; `len` is the length of the buffer `v`. -/
def writeRows {σ : Type} (R : RandSource σ) (len : Nat) :
    Nat → Nat → σ → List Record → List Record × σ
  | 0, _, s, written => (written, s)
  | n + 1, i, s, written =>
    let (v, s) := R.read s len
    let (category, s) := R.intn s 1000
    let record := [itoa (i : Int), itoa (category : Int), String.mk (base64Encode v)]
    writeRows R len n (i + 1) s (written ++ [record])

/-- The body of the loop over the size classes (main.go:74-94) for the class
`sz`, from the state `s` of the random source. -/
def makeFile {σ : Type} (R : RandSource σ) (s : σ) (sz : Int) : Option (CsvFile × σ) := do
  let filename := tableName sz ++ ".csv"
  let len ← makeLen (decodedLen (sz - 16))
  let written := writeRows R len rowCount 0 s []
  pure ({ name := filename, records := written.1 }, written.2)

/-- The loop `for _, sz := range rowSizes` of `makeFiles`. -/
def makeFilesLoop {σ : Type} (R : RandSource σ) : List Int → σ → List CsvFile →
    Option (List CsvFile × σ)
  | [], s, files => some (files, s)
  | sz :: rest, s, files => do
    let (file, s) ← makeFile R s sz
    makeFilesLoop R rest s (files ++ [file])

/-- The function `makeFiles`, from the state `seeded` the source has after
`rand.NewSource(1603296558158)`. -/
def makeFiles {σ : Type} (R : RandSource σ) (seeded : σ) : Option (List CsvFile × σ) :=
  makeFilesLoop R rowSizes seeded []

/-- A small congruential source, used to run the generator on an example. -/
def lcgSource : RandSource Nat where
  read := fun s n =>
    ((List.range n).map (fun k => byteOfNat (s * 31 + k * 7 + 5)), s * 1103515245 + 12345)
  read_length := by intro s n; simp
  intn := fun s n => (s / 65536 % n, s * 1103515245 + 12345)

/-! ## `main` (main.go:45-65) -/

/-- What an invocation of the program does. -/
inductive Outcome where
  /-- The package `flag` rejected the command line and ended the program. -/
  | flagExit (status : Nat)
  /-- The function `main` wrote `stderr` and called `os.Exit(status)`. -/
  | exit (status : Nat) (stderr : String)
  /-- The call `makeFiles()`. -/
  | csvs
  /-- The call `runScan(label, connURI)`. -/
  | scan (label connURI : String)
  deriving DecidableEq

/-- The call `flag.Parse()` of a program that defines no flag.  Parsing stops
at the first argument that is not a flag (shorter than 2 characters, or not
starting with `-`) and after the terminator `--`; the result is `flag.Args()`.
Any other dash argument is a syntax error, a request for help or an undefined
flag: the package ends the program, with status 0 after `-h` or `-help` and
status 2 otherwise. -/
def flagParse : List String → Except Nat (List String)
  | [] => Except.ok []
  | s :: rest =>
    let cs := s.data
    if cs.length < 2 ∨ cs.head? ≠ some '-' then Except.ok (s :: rest)
    else if cs = ['-', '-'] then Except.ok rest
    else
      let name := if cs.tail.head? = some '-' then cs.drop 2 else cs.drop 1
      if name = [] ∨ name.head? = some '-' ∨ name.head? = some '=' then Except.error 2
      else
        let name := name.takeWhile (fun c => c ≠ '=')
        if name = "help".data ∨ name = "h".data then Except.error 0 else Except.error 2

/-- A hexadecimal digit. -/
def hexDigit (v : Nat) : Char :=
  "0123456789abcdef".data.getD (v % 16) '0'

/-- The lower `width` hexadecimal digits of `v`. -/
def hexFixed : Nat → Nat → List Char
  | 0, _ => []
  | width + 1, v => hexFixed width (v / 16) ++ [hexDigit v]

/-- The escaped form of one character in `strconv.Quote`.  `isPrint` is
`strconv.IsPrint`, a table of the standard library. -/
def quoteRune (isPrint : Char → Bool) (c : Char) : List Char :=
  if c = '"' ∨ c = '\\' then ['\\', c]
  else if isPrint c then [c]
  else if c.toNat = 7 then ['\\', 'a']
  else if c.toNat = 8 then ['\\', 'b']
  else if c.toNat = 12 then ['\\', 'f']
  else if c = '\n' then ['\\', 'n']
  else if c = '\r' then ['\\', 'r']
  else if c = '\t' then ['\\', 't']
  else if c.toNat = 11 then ['\\', 'v']
  else if c.toNat < 32 ∨ c.toNat = 127 then '\\' :: 'x' :: hexFixed 2 c.toNat
  else if c.toNat < 65536 then '\\' :: 'u' :: hexFixed 4 c.toNat
  else '\\' :: 'U' :: hexFixed 8 c.toNat

/-- The verb `%q` applied to a string: `strconv.Quote`. -/
def quote (isPrint : Char → Bool) (s : String) : String :=
  String.mk ('"' :: (s.data.map (quoteRune isPrint)).flatten ++ ['"'])

/-- The function `main` on the command-line arguments `os.Args[1:]`. -/
def main (isPrint : Char → Bool) (args : List String) : Outcome :=
  match flagParse args with
  | Except.error status => Outcome.flagExit status
  | Except.ok positional =>
    if positional.length = 0 then Outcome.exit 1 "Need 1 args\n"
    else
      let cmd := positional.getD 0 ""
      if cmd = "csvs" then Outcome.csvs
      else if cmd = "scan" then Outcome.scan (positional.getD 1 "") (positional.getD 2 "")
      else Outcome.exit 1 ("Unknown command " ++ quote isPrint cmd)

/-- The printable ASCII characters, enough of `strconv.IsPrint` for examples. -/
def asciiPrint (c : Char) : Bool :=
  32 ≤ c.toNat ∧ c.toNat < 127

/-! ## Notions used to state the properties -/

/-- The value of a decimal digit. -/
def digitValue (c : Char) : Option Nat :=
  if 48 ≤ c.toNat ∧ c.toNat ≤ 57 then some (c.toNat - 48) else none

/-- The value of a string of decimal digits read after the value `acc`. -/
def decimalNat : List Char → Nat → Option Nat
  | [], acc => some acc
  | c :: rest, acc => do
    let d ← digitValue c
    decimalNat rest (acc * 10 + d)

/-- The integer a decimal numeral denotes: one or more digits, after an
optional minus sign. -/
def decimalValue (s : String) : Option Int :=
  match s.data with
  | [] => none
  | '-' :: rest => if rest = [] then none else (decimalNat rest 0).map (fun n => -(n : Int))
  | digits => (decimalNat digits 0).map (fun n => (n : Int))

/-- The latency in milliseconds rounded to the nearest integer, halves away
from zero: the reading of "rounded" that `Duration.Milliseconds` does not
implement. -/
def roundedMilliseconds (d : Int) : Int :=
  if 0 ≤ d then Int.tdiv (d + 500000) 1000000 else Int.tdiv (d - 500000) 1000000

/-- A table of samples as `runScan` builds it: one sequence of `runCount`
samples per size class. -/
def WellShaped (results : List (List Int)) : Prop :=
  results.length = rowSizes.length ∧ ∀ row ∈ results, row.length = runCount

instance : DecidablePred WellShaped := fun results =>
  inferInstanceAs (Decidable
    (results.length = rowSizes.length ∧ ∀ row ∈ results, row.length = runCount))

/-- The sample `results[i][j]`, for indices in range. -/
def sampleAt (results : List (List Int)) (i j : Nat) : Int :=
  (results.getD i []).getD j 0

/-- The record of run `j` in closed form. -/
def runRecordOf (results : List (List Int)) (j : Nat) : Record :=
  itoa ((j : Int) + 1) ::
    (List.range rowSizes.length).map (fun i => itoa (milliseconds (sampleAt results i j)))

/-- The median of the samples of size class `i`, for a well-shaped table. -/
def medianAt (results : List (List Int)) (i : Nat) : Int :=
  (median (results.getD i [])).getD 0

/-- The median record in closed form. -/
def medianRecordOf (results : List (List Int)) : Record :=
  "median" ::
    (List.range rowSizes.length).map (fun i => itoa (milliseconds (medianAt results i)))

/-- The sample of a run whose first clock reading is operation number `base`:
the reading of operation `base + 2` minus the reading of operation `base`. -/
def sampleFrom (env : Env) (base : Nat) : Int :=
  timeSub (env.clock (base + 2)) (env.clock base)

/-- A generated row with the index `k` and a payload of `len` raw bytes. -/
def IsRow (len k : Nat) (r : Record) : Prop :=
  ∃ (category : Nat) (v : List Byte),
    r = [itoa (k : Int), itoa (category : Int), String.mk (base64Encode v)] ∧ v.length = len

/-- A table of samples of the shape the measuring loop builds. -/
def sampleTable : List (List Int) :=
  List.replicate 5 [1999999, 2000000, 3000000, 4000000, 5000000, 6000000, 7000000,
    8000000, 9000000, 10000000]

/-! ## Facts about the numeric helpers -/

theorem sortInts_length (xs : List Int) : (sortInts xs).length = xs.length := by
  simp [sortInts]

theorem sortInts_sorted (xs : List Int) : List.Sorted (fun a b => a ≤ b) (sortInts xs) := by
  unfold sortInts
  exact List.sorted_insertionSort (fun a b : Int => a ≤ b) xs

theorem sortInts_perm (xs : List Int) : (sortInts xs).Perm xs := by
  unfold sortInts
  exact List.perm_insertionSort (fun a b : Int => a ≤ b) xs

theorem float64OfInt_exact (x : Int) (h : x.natAbs ≤ 2 ^ 53) : float64OfInt x = x := by
  unfold float64OfInt
  exact if_pos h

theorem durationOfHalf_inRange (s : Int) (h : s.natAbs ≤ 2 ^ 53) :
    durationOfHalf s = Int.tdiv s 2 := by
  have h1 : -(2 ^ 53 : Int) ≤ s ∧ s ≤ 2 ^ 53 := by
    constructor <;> omega
  have h2 : minInt64 ≤ Int.tdiv s 2 ∧ Int.tdiv s 2 ≤ maxInt64 := by
    simp only [minInt64, maxInt64]
    rcases Int.le_total 0 s with hs | hs
    · rw [Int.tdiv_eq_ediv hs (by decide)]
      constructor <;> omega
    · have : Int.tdiv s 2 = -((-s) / 2) := by
        have := Int.neg_tdiv (-s) 2
        rw [neg_neg] at this
        rw [this, Int.tdiv_eq_ediv (by omega) (by decide)]
      rw [this]
      constructor <;> omega
  simp [durationOfHalf, h2]

theorem median_eq_of_odd (durs : List Int) (h : durs.length % 2 = 1) :
    median durs = (sortInts durs)[durs.length / 2]? := by
  simp [median, sortInts_length, h]

theorem median_eq_of_even (durs : List Int) (h : durs.length % 2 = 0) :
    median durs =
      (do
        let a ← (sortInts durs)[durs.length / 2]?
        let b ← (sortInts durs)[durs.length / 2 + 1]?
        pure (durationOfHalf (float64Add (float64OfInt a) (float64OfInt b)))) := by
  simp [median, sortInts_length, h]

theorem median_even_some (durs : List Int) (heven : durs.length % 2 = 0)
    (h4 : 4 ≤ durs.length) :
    ∃ a b, (sortInts durs)[durs.length / 2]? = some a ∧
      (sortInts durs)[durs.length / 2 + 1]? = some b ∧
      median durs = some (durationOfHalf (float64Add (float64OfInt a) (float64OfInt b))) := by
  have hlen := sortInts_length durs
  have h1 : durs.length / 2 < (sortInts durs).length := by omega
  have h2 : durs.length / 2 + 1 < (sortInts durs).length := by omega
  refine ⟨(sortInts durs)[durs.length / 2], (sortInts durs)[durs.length / 2 + 1],
    List.getElem?_eq_getElem h1, List.getElem?_eq_getElem h2, ?_⟩
  rw [median_eq_of_even durs heven, List.getElem?_eq_getElem h1, List.getElem?_eq_getElem h2]
  rfl

theorem median_even_none (durs : List Int) (heven : durs.length % 2 = 0)
    (h4 : durs.length < 4) :
    (sortInts durs)[durs.length / 2 + 1]? = none ∧ median durs = none := by
  have hlen := sortInts_length durs
  have h2 : (sortInts durs)[durs.length / 2 + 1]? = none :=
    List.getElem?_eq_none (by omega)
  refine ⟨h2, ?_⟩
  rw [median_eq_of_even durs heven, h2]
  cases (sortInts durs)[durs.length / 2]? <;> rfl

theorem median_odd_some (durs : List Int) (hodd : durs.length % 2 = 1) :
    ∃ v, (sortInts durs)[durs.length / 2]? = some v ∧ median durs = some v := by
  have hlen := sortInts_length durs
  have h1 : durs.length / 2 < (sortInts durs).length := by omega
  exact ⟨(sortInts durs)[durs.length / 2], List.getElem?_eq_getElem h1, by
    rw [median_eq_of_odd durs hodd, List.getElem?_eq_getElem h1]⟩

theorem float_average_exact (a b : Int) (ha : a.natAbs ≤ 2 ^ 52) (hb : b.natAbs ≤ 2 ^ 52) :
    durationOfHalf (float64Add (float64OfInt a) (float64OfInt b)) = Int.tdiv (a + b) 2 := by
  have hs : (a + b).natAbs ≤ 2 ^ 53 := by omega
  rw [float64OfInt_exact a (by omega), float64OfInt_exact b (by omega)]
  unfold float64Add
  rw [float64OfInt_exact _ hs, durationOfHalf_inRange _ hs]

/-! ## Claims about `median` -/

/-- C1 (as amended): for an even number `n ≥ 4` of samples, `median` returns
the float64 average of the elements at 0-indexed positions `n/2` and `n/2 + 1`
of the ascending sort, truncated toward zero to whole nanoseconds; when both
elements have magnitude at most `2^52` ns this is the truncated integer
quotient `(a + b) / 2`.  For `[1,2,3,4]` the elements are 3 and 4 and the
result is 3. -/
theorem median_even_truncated_average (durs : List Int) (heven : durs.length % 2 = 0)
    (h4 : 4 ≤ durs.length) :
    List.Sorted (fun a b => a ≤ b) (sortInts durs) ∧ (sortInts durs).Perm durs ∧
    (∃ a b, (sortInts durs)[durs.length / 2]? = some a ∧
      (sortInts durs)[durs.length / 2 + 1]? = some b ∧
      median durs = some (durationOfHalf (float64Add (float64OfInt a) (float64OfInt b))) ∧
      (a.natAbs ≤ 2 ^ 52 → b.natAbs ≤ 2 ^ 52 → median durs = some (Int.tdiv (a + b) 2))) ∧
    (sortInts [1, 2, 3, 4])[2]? = some 3 ∧ (sortInts [1, 2, 3, 4])[3]? = some 4 ∧
    median [1, 2, 3, 4] = some 3 := by
  refine ⟨sortInts_sorted durs, sortInts_perm durs, ?_, by decide, by decide, by decide⟩
  obtain ⟨a, b, ha, hb, hm⟩ := median_even_some durs heven h4
  refine ⟨a, b, ha, hb, hm, ?_⟩
  intro ha2 hb2
  rw [hm, float_average_exact a b ha2 hb2]

/-- Witness of C1 at the samples `[1,2,3,4]`. -/
theorem median_even_truncated_average_witness :
    ([1, 2, 3, 4] : List Int).length % 2 = 0 ∧ 4 ≤ ([1, 2, 3, 4] : List Int).length ∧
    median [1, 2, 3, 4] = some 3 :=
  ⟨by decide, by decide,
    (median_even_truncated_average [1, 2, 3, 4] (by decide) (by decide)).2.2.2.2.2⟩

/-- C1 as stated fails: on `[1,2,3,4]` the result is the integer 3, not 3.5 (a
duration is a whole number of nanoseconds); on the even-length input `[1,2]`
no value is returned; and on large samples the float64 average is not the
exact average. -/
theorem median_even_not_exact_average :
    median [1, 2, 3, 4] = some 3 ∧ ((3 : Int) : ℚ) ≠ (3 + 4) / 2 ∧
    median [1, 2] = none ∧
    median [0, 0, 2 ^ 53 + 1, 2 ^ 53 + 1] = some (2 ^ 53) ∧
    ((2 ^ 53 : Int) : ℚ) ≠ ((2 ^ 53 + 1) + (2 ^ 53 + 1)) / 2 := by
  refine ⟨by decide, by norm_num, by decide, by decide, by norm_num⟩

/-- C2: for an odd number `n` of samples, `median` returns the element at
0-indexed position `n/2` of the ascending sort of the samples; for `[3,1,2]`
the result is 2. -/
theorem median_odd_middle (durs : List Int) (hodd : durs.length % 2 = 1) :
    List.Sorted (fun a b => a ≤ b) (sortInts durs) ∧ (sortInts durs).Perm durs ∧
    (∃ v, (sortInts durs)[durs.length / 2]? = some v ∧ median durs = some v) ∧
    median [3, 1, 2] = some 2 :=
  ⟨sortInts_sorted durs, sortInts_perm durs, median_odd_some durs hodd, by decide⟩

/-- Witness of C2 at the samples `[3,1,2]`. -/
theorem median_odd_middle_witness :
    ([3, 1, 2] : List Int).length % 2 = 1 ∧
    (∃ v, (sortInts [3, 1, 2])[([3, 1, 2] : List Int).length / 2]? = some v ∧
      median [3, 1, 2] = some v) :=
  ⟨by decide, (median_odd_middle [3, 1, 2] (by decide)).2.2.1⟩

/-- C10: `median` returns a value exactly when the number of samples is odd or
at least 4.  For 0 or 2 samples the index `n/2 + 1` read by the even branch is
not below `n`, the read is out of range and `median` fails; for every other
length, in particular for `runCount` samples, it returns a value. -/
theorem median_in_range_iff (durs : List Int) :
    ((median durs).isSome ↔ (durs.length % 2 = 1 ∨ 4 ≤ durs.length)) ∧
    (median durs = none ↔ (durs.length = 0 ∨ durs.length = 2)) ∧
    ((durs.length = 0 ∨ durs.length = 2) →
      durs.length % 2 = 0 ∧ durs.length ≤ durs.length / 2 + 1 ∧
      (sortInts durs)[durs.length / 2 + 1]? = none) ∧
    (durs.length = runCount → (median durs).isSome) := by
  have key : (median durs).isSome ↔ (durs.length % 2 = 1 ∨ 4 ≤ durs.length) := by
    rcases Nat.mod_two_eq_zero_or_one durs.length with h0 | h1
    · by_cases h4 : 4 ≤ durs.length
      · obtain ⟨a, b, _, _, hm⟩ := median_even_some durs h0 h4
        simp [hm, h4]
      · have := (median_even_none durs h0 (by omega)).2
        simp [this, h0, h4]
    · obtain ⟨v, _, hm⟩ := median_odd_some durs h1
      simp [hm, h1]
  refine ⟨key, ?_, ?_, ?_⟩
  · rw [← Option.not_isSome_iff_eq_none, key]
    omega
  · intro h
    have h0 : durs.length % 2 = 0 := by omega
    exact ⟨h0, by omega, (median_even_none durs h0 (by omega)).1⟩
  · intro h
    rw [key]
    simp only [runCount] at h
    omega

/-- Instances of C10: two samples fail, ten samples give a value. -/
theorem median_in_range_iff_witness :
    median [5, 7] = none ∧ (median [9, 8, 7, 6, 5, 4, 3, 2, 1, 0]).isSome :=
  ⟨(median_in_range_iff [5, 7]).2.1.mpr (Or.inr rfl),
    (median_in_range_iff [9, 8, 7, 6, 5, 4, 3, 2, 1, 0]).2.2.2 rfl⟩

/-! ## Facts about decimal rendering -/

theorem digitValue_digitChar : ∀ d : Fin 10,
    digitValue (Nat.digitChar d.val) = some d.val ∧ Nat.digitChar d.val ≠ '-' := by
  decide

theorem decimalNat_append (xs ys : List Char) (acc : Nat) :
    decimalNat (xs ++ ys) acc = (decimalNat xs acc).bind (decimalNat ys) := by
  induction xs generalizing acc with
  | nil => rfl
  | cons c rest ih =>
    simp only [List.cons_append, decimalNat]
    cases digitValue c with
    | none => rfl
    | some d => simp [ih]

theorem toDigitsCore_append (fuel n : Nat) (ds : List Char) :
    Nat.toDigitsCore 10 fuel n ds = Nat.toDigitsCore 10 fuel n [] ++ ds := by
  induction fuel generalizing n ds with
  | zero => rfl
  | succ fuel ih =>
    simp only [Nat.toDigitsCore]
    split
    · rfl
    · rw [ih (n / 10) (Nat.digitChar (n % 10) :: ds), ih (n / 10) [Nat.digitChar (n % 10)]]
      simp

theorem toDigitsCore_value (fuel n : Nat) (h : n < fuel) :
    decimalNat (Nat.toDigitsCore 10 fuel n []) 0 = some n ∧
    ∃ c rest, Nat.toDigitsCore 10 fuel n [] = c :: rest ∧ c ≠ '-' := by
  induction fuel generalizing n with
  | zero => exact absurd h (Nat.not_lt_zero n)
  | succ fuel ih =>
    have hd := digitValue_digitChar ⟨n % 10, Nat.mod_lt n (by decide)⟩
    simp only [Nat.toDigitsCore]
    split
    · rename_i h0
      refine ⟨?_, _, _, rfl, hd.2⟩
      simp only [decimalNat, hd.1, Option.bind_eq_bind, Option.some_bind]
      congr 1
      omega
    · rename_i h0
      obtain ⟨hv, c, rest, hc, hne⟩ := ih (n / 10) (by omega)
      rw [toDigitsCore_append]
      refine ⟨?_, c, rest ++ [Nat.digitChar (n % 10)], by rw [hc]; rfl, hne⟩
      rw [decimalNat_append, hv]
      simp only [Option.some_bind, decimalNat, hd.1, Option.bind_eq_bind]
      congr 1
      omega

theorem decimalValue_natRepr (n : Nat) :
    decimalNat (Nat.repr n).data 0 = some n ∧
    ∃ c rest, (Nat.repr n).data = c :: rest ∧ c ≠ '-' :=
  toDigitsCore_value (n + 1) n (Nat.lt_succ_self n)

/-- The decimal numeral `itoa x` denotes `x`. -/
theorem decimalValue_itoa (x : Int) : decimalValue (itoa x) = some x := by
  cases x with
  | ofNat n =>
    obtain ⟨hv, c, rest, hc, hne⟩ := decimalValue_natRepr n
    have : (itoa (Int.ofNat n)).data = (Nat.repr n).data := rfl
    unfold decimalValue
    rw [this, hc]
    rw [hc] at hv
    split
    · rename_i heq; cases heq
    · rename_i heq
      simp only [List.cons.injEq] at heq
      exact absurd heq.1 hne
    · rw [hv]; rfl
  | negSucc n =>
    obtain ⟨hv, c, rest, hc, hne⟩ := decimalValue_natRepr (n + 1)
    have : (itoa (Int.negSucc n)).data = '-' :: (Nat.repr (n + 1)).data := rfl
    unfold decimalValue
    rw [this]
    simp only [hc, hv, reduceCtorEq, if_false]
    rw [← hc, hv]
    rfl

/-! ## Facts about the results CSV -/

theorem headerRecord_eq :
    headerRecord = "run" :: rowSizes.map (fun sz => itoa sz ++ " B") := by
  decide

theorem appendCells_map (cell : Nat → Option String) (f : Nat → String) (is : List Nat)
    (record : Record) (h : ∀ i ∈ is, cell i = some (f i)) :
    appendCells cell is record = some (record ++ is.map f) := by
  induction is generalizing record with
  | nil => simp [appendCells]
  | cons i rest ih =>
    have hi : cell i = some (f i) := h i (List.mem_cons_self i rest)
    have hrest : ∀ k ∈ rest, cell k = some (f k) := fun k hk => h k (List.mem_cons_of_mem i hk)
    simp [appendCells, hi, ih _ hrest]

theorem sampleAt_eq (results : List (List Int)) (hs : WellShaped results) (i j : Nat)
    (hi : i < rowSizes.length) (hj : j < runCount) :
    ∃ row, results[i]? = some row ∧ row.length = runCount ∧
      row[j]? = some (sampleAt results i j) := by
  have hi2 : i < results.length := by rw [hs.1]; exact hi
  have hrow : results[i].length = runCount := hs.2 _ (List.getElem_mem hi2)
  have hj2 : j < results[i].length := by rw [hrow]; exact hj
  refine ⟨results[i], List.getElem?_eq_getElem hi2, hrow, ?_⟩
  simp [sampleAt, List.getElem?_eq_getElem hi2, List.getElem?_eq_getElem hj2]

theorem runCell_eq (results : List (List Int)) (hs : WellShaped results) (i j : Nat)
    (hi : i < rowSizes.length) (hj : j < runCount) :
    runCell results j i = some (itoa (milliseconds (sampleAt results i j))) := by
  obtain ⟨row, h1, _, h2⟩ := sampleAt_eq results hs i j hi hj
  simp [runCell, h1, h2]

theorem runRecord_eq (results : List (List Int)) (hs : WellShaped results) (j : Nat)
    (hj : j < runCount) : runRecord results j = some (runRecordOf results j) := by
  unfold runRecord
  rw [appendCells_map (runCell results j)
    (fun i => itoa (milliseconds (sampleAt results i j)))]
  · rfl
  · intro i hi
    exact runCell_eq results hs i j (List.mem_range.mp hi) hj

theorem medianCell_eq (results : List (List Int)) (hs : WellShaped results) (i : Nat)
    (hi : i < rowSizes.length) :
    medianCell results i = some (itoa (milliseconds (medianAt results i))) := by
  obtain ⟨row, h1, hlen, _⟩ := sampleAt_eq results hs i 0 hi (by decide)
  have heven : row.length % 2 = 0 := by rw [hlen]; rfl
  have h4 : 4 ≤ row.length := by rw [hlen]; decide
  obtain ⟨a, b, _, _, hm⟩ := median_even_some row heven h4
  simp [medianCell, medianAt, h1, hm]

theorem medianRecord_eq (results : List (List Int)) (hs : WellShaped results) :
    medianRecord results = some (medianRecordOf results) := by
  unfold medianRecord
  rw [appendCells_map (medianCell results)
    (fun i => itoa (milliseconds (medianAt results i)))]
  · rfl
  · intro i hi
    exact medianCell_eq results hs i (List.mem_range.mp hi)

theorem writeRunRecords_eq (results : List (List Int)) (n j : Nat) (written : List Record)
    (h : ∀ k, j ≤ k → k < j + n → runRecord results k = some (runRecordOf results k)) :
    writeRunRecords results n j written =
      some (written ++ (List.range' j n).map (runRecordOf results)) := by
  induction n generalizing j written with
  | zero => simp [writeRunRecords]
  | succ n ih =>
    have hj := h j (Nat.le_refl j) (by omega)
    have hrest : ∀ k, j + 1 ≤ k → k < j + 1 + n →
        runRecord results k = some (runRecordOf results k) :=
      fun k h1 h2 => h k (by omega) (by omega)
    simp [writeRunRecords, hj, ih (j + 1) _ hrest, List.range'_succ]

theorem resultRecords_eq (results : List (List Int)) (hs : WellShaped results) :
    resultRecords results =
      some (headerRecord :: ((List.range runCount).map (runRecordOf results) ++
        [medianRecordOf results])) := by
  have h := writeRunRecords_eq results runCount 0 ([] ++ [headerRecord])
    (fun k _ hk => runRecord_eq results hs k (by omega))
  simp only [List.nil_append] at h
  simp [resultRecords, h, medianRecord_eq results hs, List.range_eq_range']

/-! ## Facts about base64 -/

theorem sextet_facts : ∀ v : Fin 64,
    decodeSextet (encodeSextet v.val) = some v.val ∧ encodeSextet v.val ≠ '=' ∧
    encodeSextet v.val ≠ '\r' ∧ encodeSextet v.val ≠ '\n' := by
  decide

theorem decodeSextet_encodeSextet (v : Nat) (h : v < 64) :
    decodeSextet (encodeSextet v) = some v :=
  (sextet_facts ⟨v, h⟩).1

theorem encodeSextet_ne_pad (v : Nat) (h : v < 64) : encodeSextet v ≠ '=' :=
  (sextet_facts ⟨v, h⟩).2.1

theorem encodeSextet_keep (v : Nat) (h : v < 64) :
    (decide (encodeSextet v ≠ '\r' ∧ encodeSextet v ≠ '\n')) = true := by
  have := sextet_facts ⟨v, h⟩
  simp [this.2.2.1, this.2.2.2]

theorem byteOfNat_val (a : Byte) : byteOfNat a.val = a := by
  apply Fin.ext
  simp [byteOfNat, Nat.mod_eq_of_lt a.isLt]

theorem byteOfNat_eq (x : Nat) (a : Byte) (h : x % 256 = a.val) : byteOfNat x = a := by
  apply Fin.ext
  simp [byteOfNat, h]

theorem base64DecodeQuanta_encode (bs : List Byte) :
    base64DecodeQuanta (base64Encode bs) = some bs := by
  induction bs using base64Encode.induct with
  | case1 => rfl
  | case2 a =>
    have ha := a.isLt
    simp only [base64Encode, base64DecodeQuanta]
    rw [decodeSextet_encodeSextet _ (Nat.mod_lt _ (by decide)),
      decodeSextet_encodeSextet _ (Nat.mod_lt _ (by decide))]
    simp
    exact byteOfNat_eq _ _ (by omega)
  | case3 a b =>
    have ha := a.isLt
    have hb := b.isLt
    simp only [base64Encode, base64DecodeQuanta]
    rw [if_pos ⟨trivial, trivial⟩, if_neg (encodeSextet_ne_pad _ (Nat.mod_lt _ (by decide)))]
    rw [decodeSextet_encodeSextet _ (Nat.mod_lt _ (by decide)),
      decodeSextet_encodeSextet _ (Nat.mod_lt _ (by decide)),
      decodeSextet_encodeSextet _ (Nat.mod_lt _ (by decide))]
    simp
    exact ⟨byteOfNat_eq _ _ (by omega), byteOfNat_eq _ _ (by omega)⟩
  | case4 a b c rest ih =>
    have ha := a.isLt
    have hb := b.isLt
    have hc := c.isLt
    simp only [base64Encode, base64DecodeQuanta]
    rw [if_neg (fun h => encodeSextet_ne_pad _ (Nat.mod_lt _ (by decide)) h.2)]
    rw [decodeSextet_encodeSextet _ (Nat.mod_lt _ (by decide)),
      decodeSextet_encodeSextet _ (Nat.mod_lt _ (by decide)),
      decodeSextet_encodeSextet _ (Nat.mod_lt _ (by decide)),
      decodeSextet_encodeSextet _ (Nat.mod_lt _ (by decide)), ih]
    simp
    exact ⟨byteOfNat_eq _ _ (by omega), byteOfNat_eq _ _ (by omega),
      byteOfNat_eq _ _ (by omega)⟩

theorem base64Encode_filter (bs : List Byte) :
    (base64Encode bs).filter (fun c => c ≠ '\r' ∧ c ≠ '\n') = base64Encode bs := by
  induction bs using base64Encode.induct with
  | case1 => rfl
  | case2 a =>
    simp only [base64Encode, List.filter]
    rw [encodeSextet_keep _ (Nat.mod_lt _ (by decide)),
      encodeSextet_keep _ (Nat.mod_lt _ (by decide))]
    rfl
  | case3 a b =>
    simp only [base64Encode, List.filter]
    rw [encodeSextet_keep _ (Nat.mod_lt _ (by decide)),
      encodeSextet_keep _ (Nat.mod_lt _ (by decide)),
      encodeSextet_keep _ (Nat.mod_lt _ (by decide))]
    rfl
  | case4 a b c rest ih =>
    simp only [base64Encode, List.filter]
    rw [encodeSextet_keep _ (Nat.mod_lt _ (by decide)),
      encodeSextet_keep _ (Nat.mod_lt _ (by decide)),
      encodeSextet_keep _ (Nat.mod_lt _ (by decide)),
      encodeSextet_keep _ (Nat.mod_lt _ (by decide))]
    simp only [ih]

/-- Decoding undoes encoding. -/
theorem base64Decode_encode (bs : List Byte) :
    base64Decode (base64Encode bs) = some bs := by
  unfold base64Decode
  rw [base64Encode_filter, base64DecodeQuanta_encode]

/-- Length of the encoded text. -/
theorem base64Encode_length (bs : List Byte) :
    (base64Encode bs).length = (bs.length + 2) / 3 * 4 := by
  induction bs using base64Encode.induct with
  | case1 => rfl
  | case2 a => simp [base64Encode]
  | case3 a b => simp [base64Encode]
  | case4 a b c rest ih =>
    simp only [base64Encode, List.length_cons, ih]
    omega

/-! ## Facts about the generator -/

theorem writeRows_rows {σ : Type} (R : RandSource σ) (len n i : Nat) (s : σ)
    (written : List Record) :
    ∃ rows, (writeRows R len n i s written).1 = written ++ rows ∧ rows.length = n ∧
      ∀ k, k < n → ∃ r, rows[k]? = some r ∧ IsRow len (i + k) r := by
  induction n generalizing i s written with
  | zero => exact ⟨[], by simp [writeRows], rfl, fun k hk => absurd hk (Nat.not_lt_zero k)⟩
  | succ n ih =>
    obtain ⟨rows, h1, h2, h3⟩ := ih (i + 1) (R.intn (R.read s len).2 1000).2
      (written ++ [[itoa (i : Int), itoa ((R.intn (R.read s len).2 1000).1 : Int),
        String.mk (base64Encode (R.read s len).1)]])
    refine ⟨[itoa (i : Int), itoa ((R.intn (R.read s len).2 1000).1 : Int),
        String.mk (base64Encode (R.read s len).1)] :: rows, ?_, by simp [h2], ?_⟩
    · simp only [writeRows]
      rw [h1]
      simp
    · intro k hk
      cases k with
      | zero =>
        exact ⟨_, List.getElem?_cons_zero, (R.intn (R.read s len).2 1000).1,
          (R.read s len).1, rfl, R.read_length s len⟩
      | succ k =>
        obtain ⟨r, hr1, hr2⟩ := h3 k (by omega)
        refine ⟨r, by simpa using hr1, ?_⟩
        have : i + (k + 1) = i + 1 + k := by omega
        rw [this]
        exact hr2

theorem mem_rows_isRow {len n i : Nat} {rows : List Record} (hlen : rows.length = n)
    (h : ∀ k, k < n → ∃ r, rows[k]? = some r ∧ IsRow len (i + k) r) (r : Record)
    (hr : r ∈ rows) : ∃ k, IsRow len k r := by
  obtain ⟨k, hk, hkr⟩ := List.getElem_of_mem hr
  obtain ⟨r2, h1, h2⟩ := h k (by omega)
  rw [List.getElem?_eq_getElem hk] at h1
  have : r = r2 := by
    rw [← hkr]
    exact Option.some.inj h1
  exact ⟨i + k, this ▸ h2⟩

theorem makeFile_spec {σ : Type} (R : RandSource σ) (s : σ) (sz : Int) (len : Nat)
    (hlen : decodedLen (sz - 16) = (len : Int)) :
    ∃ file s2, makeFile R s sz = some (file, s2) ∧ file.name = tableName sz ++ ".csv" ∧
      file.records.length = rowCount ∧
      (∀ k, k < rowCount → ∃ r, file.records[k]? = some r ∧ IsRow len k r) ∧
      ∀ r ∈ file.records, ∃ k, IsRow len k r := by
  obtain ⟨rows, h1, h2, h3⟩ := writeRows_rows R len rowCount 0 s []
  have hm : makeLen (decodedLen (sz - 16)) = some len := by
    rw [hlen]
    simp [makeLen]
  generalize hp : writeRows R len rowCount 0 s [] = p at h1
  obtain ⟨records, s2⟩ := p
  simp only [List.nil_append] at h1
  subst h1
  refine ⟨{ name := tableName sz ++ ".csv", records := records }, s2, ?_, rfl, h2, ?_, ?_⟩
  · unfold makeFile
    rw [hm]
    show some (_, (writeRows R len rowCount 0 s []).2) = _
    rw [hp]
  · intro k hk
    obtain ⟨r, hr1, hr2⟩ := h3 k hk
    exact ⟨r, hr1, by simpa using hr2⟩
  · intro r hr
    exact mem_rows_isRow h2 h3 r hr

theorem isRow_fields {len k : Nat} {r : Record} (h : IsRow len k r) :
    r.length = 3 ∧ r[0]? = some (itoa (k : Int)) ∧
    ∃ payload bytes, r[2]? = some payload ∧ base64Decode payload.data = some bytes ∧
      bytes.length = len ∧ payload.length = (len + 2) / 3 * 4 := by
  obtain ⟨category, v, hr, hv⟩ := h
  subst hr
  refine ⟨rfl, rfl, String.mk (base64Encode v), v, rfl, base64Decode_encode v, hv, ?_⟩
  rw [← hv, ← base64Encode_length v]
  rfl

theorem decodedLen_rowSizes (sz : Int) (h : sz ∈ rowSizes) :
    ∃ len : Nat, decodedLen (sz - 16) = (len : Int) ∧ (len : Int) = 3 * (sz - 16) / 4 ∧
      (((len + 2) / 3 * 4 : Nat) : Int) = sz - 16 := by
  simp only [rowSizes, List.mem_cons, List.mem_singleton, List.not_mem_nil, or_false] at h
  rcases h with h | h | h | h | h
  · exact ⟨0, by subst h; decide, by subst h; decide, by subst h; decide⟩
  · exact ⟨12, by subst h; decide, by subst h; decide, by subst h; decide⟩
  · exact ⟨372, by subst h; decide, by subst h; decide, by subst h; decide⟩
  · exact ⟨756, by subst h; decide, by subst h; decide, by subst h; decide⟩
  · exact ⟨3060, by subst h; decide, by subst h; decide, by subst h; decide⟩

theorem makeFilesLoop_spec {σ : Type} (R : RandSource σ) (sizes : List Int)
    (hsizes : ∀ sz ∈ sizes, sz ∈ rowSizes) (s : σ) (files : List CsvFile) :
    ∃ new s2, makeFilesLoop R sizes s files = some (files ++ new, s2) ∧
      new.map (fun f => f.name) = sizes.map (fun sz => tableName sz ++ ".csv") ∧
      ∀ f ∈ new, f.records.length = rowCount ∧ ∀ r ∈ f.records, r.length = 3 := by
  induction sizes generalizing s files with
  | nil => exact ⟨[], s, by simp [makeFilesLoop], rfl, by simp⟩
  | cons sz rest ih =>
    obtain ⟨len, hlen, _, _⟩ := decodedLen_rowSizes sz (hsizes sz (List.mem_cons_self sz rest))
    obtain ⟨file, s1, hf, hname, hcount, _, hrows⟩ := makeFile_spec R s sz len hlen
    obtain ⟨new, s2, hloop, hnames, hall⟩ :=
      ih (fun x hx => hsizes x (List.mem_cons_of_mem sz hx)) s1 (files ++ [file])
    refine ⟨file :: new, s2, ?_, ?_, ?_⟩
    · simp [makeFilesLoop, hf, hloop]
    · simp [hname, hnames]
    · intro f hfmem
      rcases List.mem_cons.mp hfmem with h | h
      · subst h
        refine ⟨hcount, fun r hr => ?_⟩
        obtain ⟨k, hk⟩ := hrows r hr
        exact (isRow_fields hk).1
      · exact hall f h

/-! ## Claims about the generator -/

/-- C5 (as amended): for every size class, every state of the random source and
every row `makeFiles` generates for the class, decoding the payload field
succeeds and yields `DecodedLen(size - 16) = 3 * (size - 16) / 4` raw bytes, the
same count for every row of the class; it is the base64 text of the payload
that has `size - 16` characters. -/
theorem payload_decodes_to_decodedLen {σ : Type} (R : RandSource σ) (s : σ) (sz : Int)
    (hsz : sz ∈ rowSizes) :
    ∃ (len : Nat) (file : CsvFile) (s2 : σ),
      decodedLen (sz - 16) = (len : Int) ∧ (len : Int) = 3 * (sz - 16) / 4 ∧
      makeFile R s sz = some (file, s2) ∧
      ∀ r ∈ file.records, ∃ payload bytes, r[2]? = some payload ∧
        base64Decode payload.data = some bytes ∧ bytes.length = len ∧
        (payload.length : Int) = sz - 16 := by
  obtain ⟨len, hlen, hval, hchars⟩ := decodedLen_rowSizes sz hsz
  obtain ⟨file, s2, hf, _, _, _, hrows⟩ := makeFile_spec R s sz len hlen
  refine ⟨len, file, s2, hlen, hval, hf, fun r hr => ?_⟩
  obtain ⟨k, hk⟩ := hrows r hr
  obtain ⟨_, _, payload, bytes, h1, h2, h3, h4⟩ := isRow_fields hk
  exact ⟨payload, bytes, h1, h2, h3, by rw [h4]; exact hchars⟩

/-- Witness of C5 at the size class 32. -/
theorem payload_decodes_to_decodedLen_witness :
    (32 : Int) ∈ rowSizes ∧
    ∃ (len : Nat) (file : CsvFile) (s2 : Nat),
      decodedLen (32 - 16) = (len : Int) ∧ (len : Int) = 3 * (32 - 16) / 4 ∧
      makeFile lcgSource 1 32 = some (file, s2) ∧
      ∀ r ∈ file.records, ∃ payload bytes, r[2]? = some payload ∧
        base64Decode payload.data = some bytes ∧ bytes.length = len ∧
        (payload.length : Int) = 32 - 16 :=
  ⟨by decide, payload_decodes_to_decodedLen lcgSource 1 32 (by decide)⟩

/-- C5 as stated fails at the size class 32: the file has rows, and the payload
of each of them decodes to 12 bytes, not to `32 - 16 = 16` bytes. -/
theorem payload_not_size_minus_16 :
    (32 : Int) ∈ rowSizes ∧
    ∃ (file : CsvFile) (s2 : Nat), makeFile lcgSource 1 32 = some (file, s2) ∧
      (∃ r, file.records[0]? = some r) ∧
      ∀ r ∈ file.records, ∃ payload bytes, r[2]? = some payload ∧
        base64Decode payload.data = some bytes ∧ bytes.length = 12 ∧
        (bytes.length : Int) ≠ 32 - 16 := by
  refine ⟨by decide, ?_⟩
  obtain ⟨file, s2, hf, _, _, hidx, hrows⟩ :=
    makeFile_spec lcgSource 1 32 12 (by decide)
  refine ⟨file, s2, hf, ?_, fun r hr => ?_⟩
  · obtain ⟨r, hr, _⟩ := hidx 0 (by decide)
    exact ⟨r, hr⟩
  · obtain ⟨k, hk⟩ := hrows r hr
    obtain ⟨_, _, payload, bytes, h1, h2, h3, _⟩ := isRow_fields hk
    exact ⟨payload, bytes, h1, h2, h3, by rw [h3]; decide⟩

/-- C7 (as amended): for every size class the table name is `scan_` followed by
the size zero-padded to 4 digits, and the data set file of the class is that
name followed by `.csv`; size 16 gives the table `scan_0016` and the file
`scan_0016.csv`. -/
theorem tableName_zero_padded {σ : Type} (R : RandSource σ) (s : σ) (sz : Int)
    (hsz : sz ∈ rowSizes) :
    tableName sz = "scan_" ++ padZero 4 (itoa sz) ∧
    (tableName sz).length = 9 ∧
    (∃ file s2, makeFile R s sz = some (file, s2) ∧
      file.name = "scan_" ++ padZero 4 (itoa sz) ++ ".csv") ∧
    rowSizes.map tableName = ["scan_0016", "scan_0032", "scan_0512", "scan_1024", "scan_4096"] ∧
    tableName 16 ++ ".csv" = "scan_0016.csv" := by
  obtain ⟨len, hlen, _, _⟩ := decodedLen_rowSizes sz hsz
  obtain ⟨file, s2, hf, hname, _⟩ := makeFile_spec R s sz len hlen
  have hpad : tableName sz = "scan_" ++ padZero 4 (itoa sz) ∧ (tableName sz).length = 9 := by
    simp only [rowSizes, List.mem_cons, List.mem_singleton, List.not_mem_nil, or_false] at hsz
    rcases hsz with h | h | h | h | h <;> subst h <;> decide
  refine ⟨hpad.1, hpad.2, ⟨file, s2, hf, ?_⟩, by decide, by decide⟩
  rw [hname, hpad.1]

/-- Witness of C7 at the size class 16. -/
theorem tableName_zero_padded_witness :
    (16 : Int) ∈ rowSizes ∧ tableName 16 = "scan_" ++ padZero 4 (itoa 16) ∧
    padZero 4 (itoa 16) = "0016" :=
  ⟨by decide, (tableName_zero_padded lcgSource 1 16 (by decide)).1, by decide⟩

/-- C7 as stated fails at the size class 16: the table is `scan_0016`, not
`scan_16`, and the file is `scan_0016.csv`, not `scan_16.csv`. -/
theorem tableName_not_plain_size :
    (16 : Int) ∈ rowSizes ∧ tableName 16 = "scan_0016" ∧
    tableName 16 ≠ "scan_" ++ itoa 16 ∧ "scan_" ++ itoa 16 = "scan_16" ∧
    ∃ (file : CsvFile) (s2 : Nat), makeFile lcgSource 1 16 = some (file, s2) ∧
      file.name = "scan_0016.csv" ∧ file.name ≠ "scan_16.csv" := by
  refine ⟨by decide, by decide, by decide, by decide, ?_⟩
  obtain ⟨file, s2, hf, hname, _⟩ := makeFile_spec lcgSource 1 16 0 (by decide)
  have h : file.name = "scan_0016.csv" := by rw [hname]; decide
  exact ⟨file, s2, hf, h, by rw [h]; decide⟩

/-- C8: for every size class and every state of the random source, `makeFiles`
writes exactly `rowCount` records for the class, each with exactly 3 fields;
the whole run writes one such file per size class. -/
theorem makeFile_row_count {σ : Type} (R : RandSource σ) (s : σ) (sz : Int)
    (hsz : sz ∈ rowSizes) :
    (∃ file s2, makeFile R s sz = some (file, s2) ∧
      file.records.length = rowCount ∧ ∀ r ∈ file.records, r.length = 3) ∧
    (∃ files s2, makeFiles R s = some (files, s2) ∧ files.length = rowSizes.length ∧
      ∀ f ∈ files, f.records.length = rowCount ∧ ∀ r ∈ f.records, r.length = 3) ∧
    rowCount = 1000000 := by
  obtain ⟨len, hlen, _, _⟩ := decodedLen_rowSizes sz hsz
  obtain ⟨file, s2, hf, _, hcount, _, hrows⟩ := makeFile_spec R s sz len hlen
  refine ⟨⟨file, s2, hf, hcount, fun r hr => ?_⟩, ?_, rfl⟩
  · obtain ⟨k, hk⟩ := hrows r hr
    exact (isRow_fields hk).1
  · obtain ⟨new, s3, hloop, hnames, hall⟩ := makeFilesLoop_spec R rowSizes (fun _ h => h) s []
    refine ⟨new, s3, by simpa [makeFiles] using hloop, ?_, hall⟩
    have := congrArg List.length hnames
    simpa using this

/-- Witness of C8 at the size class 512. -/
theorem makeFile_row_count_witness :
    (512 : Int) ∈ rowSizes ∧
    ∃ (file : CsvFile) (s2 : Nat), makeFile lcgSource 7 512 = some (file, s2) ∧
      file.records.length = rowCount ∧ ∀ r ∈ file.records, r.length = 3 :=
  ⟨by decide, (makeFile_row_count lcgSource 7 512 (by decide)).1⟩

/-! ## Facts about the measuring loop -/

theorem measureRuns_length (env : Env) (sql : String) (n j : Nat) (row : List Int) (w : World)
    (row2 : List Int) (w2 : World) (h : measureRuns env sql n j row w = some (row2, w2)) :
    row2.length = row.length := by
  induction n generalizing j row w with
  | zero =>
    simp only [measureRuns, Option.some.injEq, Prod.mk.injEq] at h
    rw [← h.1]
  | succ n ih =>
    simp only [measureRuns] at h
    cases hr : runOnce env w sql with
    | none => simp [hr] at h
    | some p =>
      simp only [hr, Option.bind_eq_bind, Option.some_bind] at h
      rw [ih _ _ _ h, List.length_set]

theorem measureSizes_shape (env : Env) (q : String) (sizes : List Int) (i : Nat)
    (results : List (List Int)) (w : World) (results2 : List (List Int)) (w2 : World)
    (h : measureSizes env q sizes i results w = some (results2, w2))
    (hlen : i + sizes.length ≤ results.length)
    (hprev : ∀ k, k < i → ∀ row, results[k]? = some row → row.length = runCount) :
    results2.length = results.length ∧
    ∀ k, k < i + sizes.length → ∀ row, results2[k]? = some row → row.length = runCount := by
  induction sizes generalizing i results w with
  | nil =>
    simp only [measureSizes, Option.some.injEq, Prod.mk.injEq] at h
    rw [← h.1]
    exact ⟨rfl, by simpa using hprev⟩
  | cons sz rest ih =>
    simp only [measureSizes] at h
    cases hr : measureRuns env (String.mk (sprintfS q.data (tableName sz))) runCount 0
        (List.replicate runCount 0) w with
    | none => simp [hr] at h
    | some p =>
      obtain ⟨row, w1⟩ := p
      simp only [hr, Option.bind_eq_bind, Option.some_bind] at h
      have hrow : row.length = runCount := by
        rw [measureRuns_length _ _ _ _ _ _ _ _ hr, List.length_replicate]
      simp only [List.length_cons] at hlen
      have hi : i < results.length := by omega
      obtain ⟨h1, h2⟩ := ih (i + 1) (results.set i row) w1 h
        (by rw [List.length_set]; omega)
        (by
          intro k hk r hkr
          by_cases hki : k = i
          · subst hki
            rw [List.getElem?_set_self hi] at hkr
            rw [← Option.some.inj hkr]
            exact hrow
          · rw [List.getElem?_set_ne (fun e => hki e.symm)] at hkr
            exact hprev k (by omega) r hkr)
      refine ⟨by rw [h1, List.length_set], fun k hk r hkr => h2 k ?_ r hkr⟩
      simp only [List.length_cons] at hk
      omega

theorem measure_wellShaped (env : Env) (q : String) (w : World) (results : List (List Int))
    (w2 : World) (h : measure env q w = some (results, w2)) : WellShaped results := by
  obtain ⟨h1, h2⟩ := measureSizes_shape env q rowSizes 0 _ w results w2 h
    (by simp) (fun k hk => absurd hk (Nat.not_lt_zero k))
  refine ⟨by simpa using h1, fun row hrow => ?_⟩
  obtain ⟨k, hk, hkr⟩ := List.getElem_of_mem hrow
  have hk2 : k < 0 + rowSizes.length := by
    rw [h1] at hk
    simpa using hk
  exact h2 k hk2 row (by rw [List.getElem?_eq_getElem hk, hkr])

theorem milliseconds_truncates (d : Int) :
    (milliseconds d).natAbs = d.natAbs / 1000000 ∧ (0 ≤ d → 0 ≤ milliseconds d) ∧
    (d ≤ 0 → milliseconds d ≤ 0) := by
  refine ⟨by simp [milliseconds]; rfl, fun h => Int.tdiv_nonneg h (by decide), fun h => ?_⟩
  have h1 : Int.tdiv d 1000000 = -(Int.tdiv (-d) 1000000) := by
    rw [Int.neg_tdiv, neg_neg]
  have h2 : 0 ≤ Int.tdiv (-d) 1000000 := Int.tdiv_nonneg (by omega) (by decide)
  simp only [milliseconds]
  omega

theorem runOnce_eq (env : Env) (w : World) (sql : String)
    (hq : env.queryFails (w.step + 1) = false) (hc : env.closeFails (w.step + 3) = false) :
    runOnce env w sql =
      some (sampleFrom env w.step,
        { step := w.step + 4,
          trace := w.trace ++ [Event.now (env.clock w.step), Event.query sql,
            Event.now (env.clock (w.step + 2)), Event.close] }) := by
  simp [runOnce, timeNow, queryContext, rowsClose, sampleFrom, hq, hc]

theorem measureRuns_samples (env : Env) (sql : String)
    (hok : ∀ k, env.queryFails k = false ∧ env.closeFails k = false) (n j : Nat)
    (row : List Int) (w : World) (hj : j + n ≤ row.length) :
    ∃ row2 w2, measureRuns env sql n j row w = some (row2, w2) ∧
      w2.step = w.step + 4 * n ∧ row2.length = row.length ∧
      (∀ k, k < j → row2[k]? = row[k]?) ∧
      ∀ k, k < n → row2[j + k]? = some (sampleFrom env (w.step + 4 * k)) := by
  induction n generalizing j row w with
  | zero =>
    exact ⟨row, w, rfl, rfl, rfl, fun _ _ => rfl, fun k hk => absurd hk (Nat.not_lt_zero k)⟩
  | succ n ih =>
    have h1 := runOnce_eq env w sql (hok _).1 (hok _).2
    obtain ⟨row2, w2, hm, hstep, hlen, hbefore, hafter⟩ :=
      ih (j + 1) (row.set j (sampleFrom env w.step))
        { step := w.step + 4,
          trace := w.trace ++ [Event.now (env.clock w.step), Event.query sql,
            Event.now (env.clock (w.step + 2)), Event.close] }
        (by rw [List.length_set]; omega)
    refine ⟨row2, w2, ?_, ?_, ?_, ?_, ?_⟩
    · simp only [measureRuns, h1, Option.bind_eq_bind, Option.some_bind]
      exact hm
    · rw [hstep]
      show w.step + 4 + 4 * n = w.step + 4 * (n + 1)
      omega
    · rw [hlen, List.length_set]
    · intro k hk
      rw [hbefore k (by omega), List.getElem?_set_ne (by omega)]
    · intro k hk
      cases k with
      | zero =>
        rw [Nat.add_zero, hbefore j (by omega), List.getElem?_set_self (by omega)]
        rfl
      | succ k =>
        have e1 : j + (k + 1) = j + 1 + k := by omega
        have e2 : w.step + 4 * (k + 1) = w.step + 4 + 4 * k := by omega
        rw [e1, e2]
        exact hafter k (by omega)

theorem measureSizes_samples (env : Env) (q : String)
    (hok : ∀ k, env.queryFails k = false ∧ env.closeFails k = false) (sizes : List Int)
    (i : Nat) (results : List (List Int)) (w : World)
    (hi : i + sizes.length ≤ results.length) :
    ∃ results2 w2, measureSizes env q sizes i results w = some (results2, w2) ∧
      w2.step = w.step + 4 * (10 * sizes.length) ∧ results2.length = results.length ∧
      (∀ k, k < i → results2[k]? = results[k]?) ∧
      ∀ k, k < sizes.length → ∃ row, results2[i + k]? = some row ∧
        ∀ j, j < 10 → row[j]? = some (sampleFrom env (w.step + 4 * (10 * k + j))) := by
  induction sizes generalizing i results w with
  | nil =>
    exact ⟨results, w, rfl, rfl, rfl, fun _ _ => rfl,
      fun k hk => absurd hk (Nat.not_lt_zero k)⟩
  | cons sz rest ih =>
    simp only [List.length_cons] at hi
    obtain ⟨row, w1, hr, hstep1, hlen1, _, hsamples⟩ :=
      measureRuns_samples env (String.mk (sprintfS q.data (tableName sz))) hok runCount 0
        (List.replicate runCount 0) w (by simp)
    obtain ⟨results2, w2, hm, hstep2, hlen2, hbefore, hafter⟩ :=
      ih (i + 1) (results.set i row) w1 (by rw [List.length_set]; omega)
    have hrc : runCount = 10 := rfl
    refine ⟨results2, w2, ?_, ?_, ?_, ?_, ?_⟩
    · simp only [measureSizes, hr, Option.bind_eq_bind, Option.some_bind]
      exact hm
    · rw [hstep2, hstep1, hrc, List.length_cons]
      omega
    · rw [hlen2, List.length_set]
    · intro k hk
      rw [hbefore k (by omega), List.getElem?_set_ne (by omega)]
    · intro k hk
      cases k with
      | zero =>
        refine ⟨row, ?_, fun j hj => ?_⟩
        · rw [Nat.add_zero, hbefore i (by omega), List.getElem?_set_self (by omega)]
        · have := hsamples j (by rw [hrc]; exact hj)
          rw [Nat.zero_add] at this
          rw [this]
          have e : w.step + 4 * j = w.step + 4 * (10 * 0 + j) := by omega
          rw [e]
      | succ k =>
        simp only [List.length_cons] at hk
        obtain ⟨r, hr1, hr2⟩ := hafter k (by omega)
        have e1 : i + (k + 1) = i + 1 + k := by omega
        refine ⟨r, by rw [e1]; exact hr1, fun j hj => ?_⟩
        rw [hr2 j hj, hstep1, hrc]
        have e : w.step + 4 * 10 + 4 * (10 * k + j) = w.step + 4 * (10 * (k + 1) + j) := by
          omega
        rw [e]

theorem runScanQuery_ok (env : Env) (label : String) (q : BenchmarkQuery) (w : World)
    (hok : ∀ k, env.queryFails k = false ∧ env.closeFails k = false) :
    ∃ results w2 file, measure env q.q w = some (results, w2) ∧ WellShaped results ∧
      runScanQuery env label q w = some (file, w2) ∧
      file.name = "results-" ++ label ++ "-" ++ q.label ++ "-rowcount" ++
        itoa rowCount ++ ".csv" ∧
      file.records = headerRecord :: ((List.range runCount).map (runRecordOf results) ++
        [medianRecordOf results]) := by
  obtain ⟨results, w2, hm, _⟩ :=
    measureSizes_samples env q.q hok rowSizes 0 (List.replicate rowSizes.length []) w (by simp)
  have hm2 : measure env q.q w = some (results, w2) := hm
  have hs := measure_wellShaped env q.q w results w2 hm2
  refine ⟨results, w2,
    { name := "results-" ++ label ++ "-" ++ q.label ++ "-rowcount" ++ itoa rowCount ++ ".csv",
      records := headerRecord :: ((List.range runCount).map (runRecordOf results) ++
        [medianRecordOf results]) }, hm2, hs, ?_, rfl, rfl⟩
  simp only [runScanQuery, hm2, resultRecords_eq results hs, Option.bind_eq_bind,
    Option.some_bind]
  rfl

theorem records_layout (results : List (List Int)) :
    (headerRecord :: ((List.range runCount).map (runRecordOf results) ++
      [medianRecordOf results])).length = runCount + 2 ∧
    ∀ r ∈ headerRecord :: ((List.range runCount).map (runRecordOf results) ++
      [medianRecordOf results]), r.length = rowSizes.length + 1 := by
  refine ⟨by simp, fun r hr => ?_⟩
  simp only [List.mem_cons, List.mem_append, List.mem_map, List.mem_range,
    List.mem_singleton, List.not_mem_nil, or_false] at hr
  rcases hr with h | ⟨j, _, h⟩ | h
  · rw [h]; decide
  · rw [← h]; simp [runRecordOf]
  · rw [h]; simp [medianRecordOf]

theorem runScanLoop_ok (env : Env) (label : String)
    (hok : ∀ k, env.queryFails k = false ∧ env.closeFails k = false)
    (qs : List BenchmarkQuery) (w : World) (files : List CsvFile) :
    ∃ new w2, runScanLoop env label qs w files = some (files ++ new, w2) ∧
      new.length = qs.length ∧
      ∀ f ∈ new, f.records.length = runCount + 2 ∧ f.records[0]? = some headerRecord ∧
        ∀ r ∈ f.records, r.length = rowSizes.length + 1 := by
  induction qs generalizing w files with
  | nil => exact ⟨[], w, by simp [runScanLoop], rfl, by simp⟩
  | cons q rest ih =>
    obtain ⟨results, w1, file, _, _, hq, _, hrec⟩ := runScanQuery_ok env label q w hok
    obtain ⟨new, w2, hloop, hlen, hall⟩ := ih w1 (files ++ [file])
    refine ⟨file :: new, w2, ?_, by simp [hlen], ?_⟩
    · simp only [runScanLoop, hq, Option.bind_eq_bind, Option.some_bind, hloop]
      simp
    · intro f hf
      rcases List.mem_cons.mp hf with h | h
      · subst h
        rw [hrec]
        exact ⟨(records_layout results).1, rfl, (records_layout results).2⟩
      · exact hall f h

/-! ## Claims about `runScan` -/

/-- C3: for every query template and every table of measured samples (one
sequence of `runCount` samples per size class; the tables the measuring loop
builds have this shape), the records written to the results CSV are, in order:
the header `run`, `16 B`, `32 B`, `512 B`, `1024 B`, `4096 B` (that is `run`,
then `<size> B` for each size class in `rowSizes` order); one row per run whose
first field is the 1-based run index `1`, `2`, ..., `10`; a final row whose
first field is `median`.  These are `runCount + 2` rows of
`len(rowSizes) + 1` fields each. -/
theorem resultRecords_layout (results : List (List Int)) (hs : WellShaped results) :
    (∀ env q w r w2, measure env q w = some (r, w2) → WellShaped r) ∧
    (∀ (env : Env) (label : String) (w : World),
      (∀ k, env.queryFails k = false ∧ env.closeFails k = false) →
      ∃ files w2, runScan env label w = some (files, w2) ∧ files.length = queries.length ∧
        ∀ f ∈ files, f.records.length = runCount + 2 ∧
          f.records[0]? = some ["run", "16 B", "32 B", "512 B", "1024 B", "4096 B"] ∧
          ∀ r ∈ f.records, r.length = rowSizes.length + 1) ∧
    ∃ runs med, resultRecords results = some (headerRecord :: (runs ++ [med])) ∧
      headerRecord = ["run", "16 B", "32 B", "512 B", "1024 B", "4096 B"] ∧
      headerRecord = "run" :: rowSizes.map (fun sz => itoa sz ++ " B") ∧
      (∀ sz ∈ rowSizes, decimalValue (itoa sz) = some sz) ∧
      runs.length = runCount ∧
      runs.map (fun r => r[0]?) =
        [some "1", some "2", some "3", some "4", some "5", some "6", some "7", some "8",
          some "9", some "10"] ∧
      (∀ j, j < runCount → ∃ r, runs[j]? = some r ∧ r[0]? = some (itoa ((j : Int) + 1)) ∧
        decimalValue (itoa ((j : Int) + 1)) = some ((j : Int) + 1)) ∧
      med[0]? = some "median" ∧
      (headerRecord :: (runs ++ [med])).length = runCount + 2 ∧
      ∀ r ∈ headerRecord :: (runs ++ [med]), r.length = rowSizes.length + 1 := by
  refine ⟨measure_wellShaped, ?_, (List.range runCount).map (runRecordOf results),
    medianRecordOf results, resultRecords_eq results hs, by decide, headerRecord_eq,
    fun sz _ => decimalValue_itoa sz, by simp, ?_, ?_, rfl,
    (records_layout results).1, (records_layout results).2⟩
  · intro env label w hok
    obtain ⟨new, w2, hloop, hlen, hall⟩ := runScanLoop_ok env label hok queries w []
    refine ⟨new, w2, by simpa [runScan] using hloop, hlen, fun f hf => ?_⟩
    obtain ⟨h1, h2, h3⟩ := hall f hf
    refine ⟨h1, ?_, h3⟩
    rw [h2]
    decide
  · have h : ((List.range runCount).map (runRecordOf results)).map (fun r => r[0]?) =
        (List.range runCount).map (fun j => some (itoa ((j : Int) + 1))) := by
      rw [List.map_map]
      rfl
    rw [h]
    decide
  · intro j hj
    refine ⟨runRecordOf results j, ?_, rfl, decimalValue_itoa _⟩
    simp [List.getElem?_range hj]

/-- Witness of C3 at a concrete table. -/
theorem resultRecords_layout_witness :
    WellShaped sampleTable ∧
    ∃ runs med, resultRecords sampleTable = some (headerRecord :: (runs ++ [med])) ∧
      headerRecord = ["run", "16 B", "32 B", "512 B", "1024 B", "4096 B"] ∧
      runs.length = runCount ∧
      runs.map (fun r => r[0]?) =
        [some "1", some "2", some "3", some "4", some "5", some "6", some "7", some "8",
          some "9", some "10"] ∧
      med[0]? = some "median" ∧
      (headerRecord :: (runs ++ [med])).length = runCount + 2 ∧
      ∀ r ∈ headerRecord :: (runs ++ [med]), r.length = rowSizes.length + 1 := by
  obtain ⟨runs, med, h1, h2, _, _, h3, h4, _, h5, h6, h7⟩ :=
    (resultRecords_layout sampleTable (by decide)).2.2
  exact ⟨by decide, runs, med, h1, h2, h3, h4, h5, h6, h7⟩

/-- C4 (as amended): for every run index `j` in `1..runCount` and every size
class at position `i` of `rowSizes`, field `i + 1` of run row `j` of the
results CSV is the decimal rendering of the sample `results[i][j-1]` truncated
toward zero to an integer number of milliseconds (`Duration.Milliseconds`; a
sample of 1999999 ns is written `1`): rows are runs, columns are size
classes.  Field 0 of the row is the decimal rendering of `j`. -/
theorem run_row_cell (results : List (List Int)) (hs : WellShaped results) (i j : Nat)
    (hi : i < rowSizes.length) (hj1 : 1 ≤ j) (hj2 : j ≤ runCount) :
    ∃ records record row d cell, resultRecords results = some records ∧
      records[j]? = some record ∧ results[i]? = some row ∧ row[j - 1]? = some d ∧
      record[0]? = some (itoa (j : Int)) ∧ decimalValue (itoa (j : Int)) = some (j : Int) ∧
      record[i + 1]? = some cell ∧ cell = itoa (milliseconds d) ∧
      decimalValue cell = some (Int.tdiv d 1000000) ∧
      (Int.tdiv d 1000000).natAbs = d.natAbs / 1000000 ∧
      (0 ≤ d → 0 ≤ Int.tdiv d 1000000) ∧ (d ≤ 0 → Int.tdiv d 1000000 ≤ 0) ∧
      itoa (milliseconds 1999999) = "1" ∧ itoa (milliseconds (-1999999)) = "-1" ∧
      itoa (milliseconds 12000000) = "12" := by
  obtain ⟨row, hrow, _, hd⟩ := sampleAt_eq results hs i (j - 1) hi (by omega)
  have hm := milliseconds_truncates (sampleAt results i (j - 1))
  refine ⟨_, runRecordOf results (j - 1), row, sampleAt results i (j - 1), _,
    resultRecords_eq results hs, ?_, hrow, hd, ?_, decimalValue_itoa _, ?_, rfl,
    decimalValue_itoa _, hm.1, hm.2.1, hm.2.2, by decide, by decide, by decide⟩
  · obtain ⟨k, rfl⟩ : ∃ k, j = k + 1 := ⟨j - 1, by omega⟩
    have hk : k < runCount := by omega
    simp [List.getElem?_append_left, List.getElem?_range hk, hk]
  · obtain ⟨k, rfl⟩ : ∃ k, j = k + 1 := ⟨j - 1, by omega⟩
    simp [runRecordOf]
  · simp [runRecordOf, List.getElem?_range hi]

/-- Witness of C4: run 1 of the size class at position 2 took 1999999 ns and is
written as `1`. -/
theorem run_row_cell_witness :
    WellShaped sampleTable ∧ 2 < rowSizes.length ∧ 1 ≤ 1 ∧ 1 ≤ runCount ∧
    ∃ records record row d cell, resultRecords sampleTable = some records ∧
      records[1]? = some record ∧ sampleTable[2]? = some row ∧ row[1 - 1]? = some d ∧
      record[2 + 1]? = some cell ∧ cell = itoa (milliseconds d) ∧
      decimalValue cell = some (Int.tdiv d 1000000) := by
  obtain ⟨records, record, row, d, cell, h1, h2, h3, h4, _, _, h5, h6, h7, _⟩ :=
    run_row_cell sampleTable (by decide) 2 1 (by decide) (by decide) (by decide)
  exact ⟨by decide, by decide, by decide, by decide,
    records, record, row, d, cell, h1, h2, h3, h4, h5, h6, h7⟩

/-- C4 as stated fails if "rounded" is rounding to the nearest millisecond: run 1
of the size class at position 2 of the table took 1999999 ns, the nearest
whole number of milliseconds is 2, and the field written is `1`. -/
theorem run_row_cell_not_nearest :
    WellShaped sampleTable ∧
    (∃ row, sampleTable[2]? = some row ∧ row[0]? = some 1999999) ∧
    (∃ records record, resultRecords sampleTable = some records ∧
      records[1]? = some record ∧ record[2 + 1]? = some "1") ∧
    roundedMilliseconds 1999999 = 2 ∧ itoa (roundedMilliseconds 1999999) = "2" ∧
    itoa (milliseconds 1999999) = "1" ∧ ("1" : String) ≠ "2" := by
  refine ⟨by decide, by decide, ?_, by decide, by decide, by decide, by decide⟩
  refine ⟨_, runRecordOf sampleTable 0, resultRecords_eq sampleTable (by decide), by decide,
    by decide⟩

/-- C6 (as amended): in `runScan` the sample recorded for a run is the clock
reading taken right after `QueryContext` returns minus the reading taken just
before the query was issued; the second reading precedes the error check and
`rows.Close()`, so closing the cursor is not part of the sample.  This holds
for every query, size class `i` and run index `j`: the run is the operations
number `base` to `base + 3` with `base = 4 * (runCount * i + j)` after the
start, in the order reading, query, reading, close, and `results[i][j]` is the
reading of `base + 2` minus the reading of `base`. -/
theorem sample_read_before_close (env : Env) (q : String) (w : World)
    (hok : ∀ k, env.queryFails k = false ∧ env.closeFails k = false) :
    (∀ sql, runOnce env w sql =
      some (timeSub (env.clock (w.step + 2)) (env.clock w.step),
        { step := w.step + 4,
          trace := w.trace ++ [Event.now (env.clock w.step), Event.query sql,
            Event.now (env.clock (w.step + 2)), Event.close] })) ∧
    ∃ results w2, measure env q w = some (results, w2) ∧
      w2.step = w.step + 4 * (runCount * rowSizes.length) ∧
      ∀ i j, i < rowSizes.length → j < runCount →
        ∃ row, results[i]? = some row ∧
          row[j]? = some (timeSub (env.clock (w.step + 4 * (runCount * i + j) + 2))
            (env.clock (w.step + 4 * (runCount * i + j)))) := by
  refine ⟨fun sql => runOnce_eq env w sql (hok _).1 (hok _).2, ?_⟩
  obtain ⟨results, w2, hm, hstep, _, _, hsamples⟩ :=
    measureSizes_samples env q hok rowSizes 0 (List.replicate rowSizes.length []) w (by simp)
  refine ⟨results, w2, hm, hstep, fun i j hi hj => ?_⟩
  obtain ⟨row, h1, h2⟩ := hsamples i hi
  rw [Nat.zero_add] at h1
  exact ⟨row, h1, h2 j hj⟩

/-- Witness of C6 with a clock that advances 10 ns per operation: every sample
is 20 ns. -/
theorem sample_read_before_close_witness :
    (∀ k, steadyEnv.queryFails k = false ∧ steadyEnv.closeFails k = false) ∧
    ∃ results w2,
      measure steadyEnv "SELECT COUNT(number) FROM %s" ⟨0, []⟩ = some (results, w2) ∧
      w2.step = 0 + 4 * (runCount * rowSizes.length) ∧
      ∀ i j, i < rowSizes.length → j < runCount →
        ∃ row, results[i]? = some row ∧
          row[j]? = some (timeSub (steadyEnv.clock (0 + 4 * (runCount * i + j) + 2))
            (steadyEnv.clock (0 + 4 * (runCount * i + j)))) :=
  ⟨fun _ => ⟨rfl, rfl⟩,
    (sample_read_before_close steadyEnv "SELECT COUNT(number) FROM %s" ⟨0, []⟩
      (fun _ => ⟨rfl, rfl⟩)).2⟩

/-- C6 as stated fails: with a clock that advances 10 ns per operation the
recorded sample is 20 ns and the second reading comes before the close in the
order of operations; a reading taken after the close would give 30 ns. -/
theorem sample_not_read_after_close :
    runOnce steadyEnv ⟨0, []⟩ "q" =
      some (20, ⟨4, [Event.now 0, Event.query "q", Event.now 20, Event.close]⟩) ∧
    runOnceCloseFirst steadyEnv ⟨0, []⟩ "q" =
      some (30, ⟨4, [Event.now 0, Event.query "q", Event.close, Event.now 30]⟩) ∧
    runOnce steadyEnv ⟨0, []⟩ "q" ≠ runOnceCloseFirst steadyEnv ⟨0, []⟩ "q" := by
  refine ⟨by decide, by decide, by decide⟩

/-! ## Facts about `main` -/

theorem flagParse_plain (a : String) (rest : List String)
    (h : a.data.length < 2 ∨ a.data.head? ≠ some '-') :
    flagParse (a :: rest) = Except.ok (a :: rest) := by
  simp only [flagParse]
  rw [if_pos h]

theorem quoteRune_plain (isPrint : Char → Bool) (c : Char) (h1 : isPrint c = true)
    (h2 : c ≠ '"') (h3 : c ≠ '\\') : quoteRune isPrint c = [c] := by
  simp [quoteRune, h1, h2, h3]

theorem quote_plain (isPrint : Char → Bool) (cs : List Char)
    (h : ∀ c ∈ cs, isPrint c = true ∧ c ≠ '"' ∧ c ≠ '\\') :
    (cs.map (quoteRune isPrint)).flatten = cs := by
  induction cs with
  | nil => rfl
  | cons c rest ih =>
    have hc := h c (List.mem_cons_self c rest)
    simp [quoteRune_plain isPrint c hc.1 hc.2.1 hc.2.2,
      ih (fun x hx => h x (List.mem_cons_of_mem c hx))]

theorem main_of_positional (isPrint : Char → Bool) (args positional : List String)
    (h : flagParse args = Except.ok positional) :
    main isPrint args =
      match positional with
      | [] => Outcome.exit 1 "Need 1 args\n"
      | cmd :: rest =>
        if cmd = "csvs" then Outcome.csvs
        else if cmd = "scan" then Outcome.scan (rest.getD 0 "") (rest.getD 1 "")
        else Outcome.exit 1 ("Unknown command " ++ quote isPrint cmd) := by
  cases positional with
  | nil => simp [main, h]
  | cons cmd rest => simp [main, h]

theorem flagParse_dash (c : Char) (rest : List String) (cs : List Char)
    (hne : '-' :: c :: cs ≠ ['-', '-']) :
    ∃ status, flagParse (String.mk ('-' :: c :: cs) :: rest) = Except.error status ∧
      (status = 0 ∨ status = 2) ∧
      (status = 0 ↔ ('-' :: c :: cs).takeWhile (fun x => x ≠ '=') ∈
        ["-h".data, "-help".data, "--h".data, "--help".data]) := by
  have hlen : ¬ (cs.length + 1 + 1 < 2) := by omega
  by_cases hc : c = '-'
  · subst hc
    cases cs with
    | nil => exact absurd rfl hne
    | cons d t2 =>
      have hlen2 : ¬ (t2.length + 1 + 1 + 1 < 2) := by omega
      by_cases hd : d = '-' ∨ d = '='
      · refine ⟨2, ?_, Or.inr rfl, ?_⟩
        · rcases hd with h | h <;> subst h <;> simp [flagParse]
        · rcases hd with h | h <;> subst h <;> simp
      · have hd1 : d ≠ '-' := fun h => hd (Or.inl h)
        have hd2 : d ≠ '=' := fun h => hd (Or.inr h)
        by_cases hh : (d :: t2).takeWhile (fun x => x ≠ '=') = "help".data ∨
            (d :: t2).takeWhile (fun x => x ≠ '=') = "h".data
        · refine ⟨0, ?_, Or.inl rfl, ?_⟩
          · simp only [flagParse]
            simp [hd2] at hh
            simp [hd1, hd2, hlen2, hh]
          · simp [hd2] at hh ⊢
            tauto
        · refine ⟨2, ?_, Or.inr rfl, ?_⟩
          · simp only [flagParse]
            simp [hd2] at hh
            simp [hd1, hd2, hlen2]
            exact hh
          · simp [hd2] at hh ⊢
            tauto
  · by_cases he : c = '='
    · subst he
      exact ⟨2, by simp [flagParse], Or.inr rfl, by simp⟩
    · by_cases hh : (c :: cs).takeWhile (fun x => x ≠ '=') = "help".data ∨
          (c :: cs).takeWhile (fun x => x ≠ '=') = "h".data
      · refine ⟨0, ?_, Or.inl rfl, ?_⟩
        · simp only [flagParse]
          simp [he] at hh
          simp [hc, he, hlen, hh]
        · simp [he] at hh ⊢
          tauto
      · refine ⟨2, ?_, Or.inr rfl, ?_⟩
        · simp only [flagParse]
          simp [he] at hh
          simp [hc, he, hlen]
          exact hh
        · simp [he, hc] at hh ⊢
          tauto

/-! ## Claims about `main` -/

/-- C9 (as amended): `main` first calls `flag.Parse()`.  On an empty argument
list, on a list whose first argument is not a dash argument (it is shorter than
2 characters or does not start with `-`) and on a list that starts with the
terminator `--`, parsing leaves the positional arguments: the list itself,
respectively the rest of the list after `--`.  On any other leading dash
argument the package `flag` ends the program itself, with status 0 when the
flag name is `h` or `help` and status 2 otherwise.  On the positional
arguments, `main` exits with status 1 after writing a message to standard
error, and runs neither the generator nor the benchmark, whenever they are
empty or their first element is neither `csvs` nor `scan`; in the second case
the message is `Unknown command ` followed by the `%q` quotation of the
command, which holds the name verbatim when the name has only printable
characters other than the double quote and the backslash.  When the first
positional argument is `csvs` or `scan`, `main` runs the generator,
respectively the benchmark. -/
theorem main_usage_errors (isPrint : Char → Bool) (args : List String) :
    (∀ positional, flagParse args = Except.ok positional →
      (positional = [] → main isPrint args = Outcome.exit 1 "Need 1 args\n") ∧
      (∀ cmd rest, positional = cmd :: rest → cmd ≠ "csvs" → cmd ≠ "scan" →
        main isPrint args = Outcome.exit 1 ("Unknown command " ++ quote isPrint cmd) ∧
        ((∀ c ∈ cmd.data, isPrint c = true ∧ c ≠ '"' ∧ c ≠ '\\') →
          quote isPrint cmd = "\"" ++ cmd ++ "\"" ∧
          cmd.data <:+: ("Unknown command " ++ quote isPrint cmd).data)) ∧
      (∀ rest, positional = "csvs" :: rest → main isPrint args = Outcome.csvs) ∧
      (∀ rest, positional = "scan" :: rest →
        main isPrint args = Outcome.scan (rest.getD 0 "") (rest.getD 1 ""))) ∧
    (args = [] → flagParse args = Except.ok []) ∧
    (∀ a rest, args = a :: rest → (a.data.length < 2 ∨ a.data.head? ≠ some '-') →
      flagParse args = Except.ok args) ∧
    (∀ rest, args = "--" :: rest → flagParse args = Except.ok rest) ∧
    (∀ a rest, args = a :: rest → 2 ≤ a.data.length → a.data.head? = some '-' →
      a ≠ "--" →
      ∃ status, flagParse args = Except.error status ∧
        main isPrint args = Outcome.flagExit status ∧
        (status = 0 ∨ status = 2) ∧
        (status = 0 ↔ a.data.takeWhile (fun x => x ≠ '=') ∈
          ["-h".data, "-help".data, "--h".data, "--help".data])) ∧
    main isPrint ["-x"] = Outcome.flagExit 2 ∧ main isPrint ["--bogus=1"] = Outcome.flagExit 2 ∧
    main isPrint ["-h"] = Outcome.flagExit 0 ∧ main isPrint ["--help"] = Outcome.flagExit 0 ∧
    main isPrint ["-help=1", "csvs"] = Outcome.flagExit 0 ∧
    main isPrint [] = Outcome.exit 1 "Need 1 args\n" ∧
    main isPrint ["--"] = Outcome.exit 1 "Need 1 args\n" := by
  refine ⟨?_, ?_, ?_, ?_, ?_, rfl, rfl, rfl, rfl, rfl, rfl, rfl⟩
  · intro positional hp
    have hm := main_of_positional isPrint args positional hp
    refine ⟨?_, ?_, ?_, ?_⟩
    · intro h
      subst h
      exact hm
    · intro cmd rest h h1 h2
      subst h
      refine ⟨by simp [hm, h1, h2], fun hplain => ?_⟩
      have hq : quote isPrint cmd = "\"" ++ cmd ++ "\"" := by
        simp only [quote, quote_plain isPrint cmd.data hplain]
        rfl
      refine ⟨hq, "Unknown command \"".data, ['"'], ?_⟩
      rw [hq]
      rfl
    · intro rest h
      subst h
      simp [hm]
    · intro rest h
      subst h
      simp [hm]
  · intro h
    subst h
    rfl
  · intro a rest h hplain
    subst h
    exact flagParse_plain a rest hplain
  · intro rest h
    subst h
    simp [flagParse]
  · intro a rest h hlen hhead hne
    subst h
    obtain ⟨l⟩ := a
    cases l with
    | nil => simp at hlen
    | cons c0 l1 =>
      cases l1 with
      | nil => simp at hlen
      | cons c cs =>
        simp only [List.head?_cons, Option.some.injEq] at hhead
        subst hhead
        have hne2 : '-' :: c :: cs ≠ ['-', '-'] := by
          intro h
          apply hne
          rw [h]
        obtain ⟨status, h1, h2, h3⟩ := flagParse_dash c rest cs hne2
        exact ⟨status, h1, by simp only [main, h1], h2, h3⟩

/-- Witness of C9 at the command lines `bogus` and `-h`. -/
theorem main_usage_errors_witness :
    flagParse ["bogus"] = Except.ok ["bogus"] ∧
    main asciiPrint ["bogus"] = Outcome.exit 1 ("Unknown command " ++ quote asciiPrint "bogus") ∧
    quote asciiPrint "bogus" = "\"bogus\"" ∧
    (∃ status, flagParse ["-h"] = Except.error status ∧
      main asciiPrint ["-h"] = Outcome.flagExit status ∧ (status = 0 ∨ status = 2) ∧
      (status = 0 ↔ "-h".data.takeWhile (fun x => x ≠ '=') ∈
        ["-h".data, "-help".data, "--h".data, "--help".data])) :=
  ⟨rfl,
    (((main_usage_errors asciiPrint ["bogus"]).1 ["bogus"] rfl).2.1 "bogus" [] rfl
      (by decide) (by decide)).1,
    by decide,
    (main_usage_errors asciiPrint ["-h"]).2.2.2.2.1 "-h" [] rfl (by decide) (by decide)
      (by decide)⟩

/-- C9 as stated fails: on the command line `-- csvs`, whose first argument `--`
is neither `csvs` nor `scan`, the generator runs; on `-x` the package `flag`
ends the program with status 2, not `main` with status 1; and for the
unrecognized command `a"b` the message holds the quoted form `"a\"b"`, not the
name itself. -/
theorem main_first_argument_not_decisive :
    main asciiPrint ["--", "csvs"] = Outcome.csvs ∧
    ("--" : String) ≠ "csvs" ∧ ("--" : String) ≠ "scan" ∧
    main asciiPrint ["-x"] = Outcome.flagExit 2 ∧
    ("-x" : String) ≠ "csvs" ∧ ("-x" : String) ≠ "scan" ∧
    main asciiPrint ["a\"b"] = Outcome.exit 1 "Unknown command \"a\\\"b\"" ∧
    ¬ ("a\"b".data <:+: "Unknown command \"a\\\"b\"".data) := by
  refine ⟨by decide, by decide, by decide, by decide, by decide, by decide, by decide,
    by decide⟩

end Pgcrdbbench
